import Mathlib

/-!
Verification of the HabrahabrSpider entity-extraction pipeline
(`src/analyser/person_extractor.py`, `src/analyser/natasha_adapter.py`,
`src/analyser/main.py`, `src/context_analyser/main.py`) against its
natural-language specification.

The Python code is shallowly embedded: frozen dataclasses become an
inductive type, the `PersonalityType` enum becomes an inductive with its
declared iteration order as a list, the per-candidate resolution logic
(wikipedia search, title disambiguation, category classification, stop
category veto) becomes total Lean functions parameterised by an abstract
knowledge-base oracle, and `collections.Counter` becomes an association
list built in first-seen order.
-/

namespace HabrSpider

/-- The four variants of the `PersonalityType` enum, in the order fixed by
`__order__ = 'INDIVIDUAL COMPANY MEDIA_GROUP UNVERIFIED'`. -/
inductive PersonalityType where
  | INDIVIDUAL
  | COMPANY
  | MEDIA_GROUP
  | UNVERIFIED
deriving DecidableEq, Repr

/-- Iteration order of `for t in PersonalityType`, i.e. declaration order. -/
def PersonalityType.all : List PersonalityType :=
  [.INDIVIDUAL, .COMPANY, .MEDIA_GROUP, .UNVERIFIED]

/-- The category list attached to each enum member
(`INDIVIDUAL = [...]`, `COMPANY = [...]`, `MEDIA_GROUP = [...]`,
`UNVERIFIED = []`). -/
def PersonalityType.categories : PersonalityType → List String
  | .INDIVIDUAL => ["Категория:Персоналии по алфавиту"]
  | .COMPANY => ["Категория:Компании по алфавиту", "Категория:Сайты по алфавиту"]
  | .MEDIA_GROUP => ["Категория:Музыкальные коллективы по алфавиту"]
  | .UNVERIFIED => []

/-- Membership test `accepts_category`: `self.__categories.count(category) != 0`. -/
def PersonalityType.accepts_category (t : PersonalityType) (category : String) : Bool :=
  t.categories.count category != 0

/-- Veto set `STOP_WIKI_CATEGORIES` from `person_extractor.py`. -/
def STOP_WIKI_CATEGORIES : List String :=
  ["Категория:Страницы значений по алфавиту",
   "Категория:Государства по алфавиту",
   "Категория:Литературные произведения по алфавиту",
   "Категория:Населённые пункты по алфавиту",
   "Категория:Фильмы по алфавиту",
   "Категория:Блокчейн",
   "Категория:Программное обеспечение по алфавиту",
   "Категория:Криптография",
   "Категория:Криптовалюты",
   "Категория:Музеи по алфавиту"]

/-- The two frozen dataclasses implementing the `Personality` interface:
`WikiPersonality(__fullname, __wiki_link, __type)` and
`UnverifiedPersonality(__fullname)`.  Dataclass equality is field-wise
equality within the same class, which is exactly structural equality of
this inductive. -/
inductive Personality where
  | wiki (fullname : String) (wiki_link : String) (ptype : PersonalityType)
  | unverified (fullname : String)
deriving DecidableEq, Repr

/-- The `fullname` property of both dataclasses. -/
def Personality.fullname : Personality → String
  | .wiki f _ _ => f
  | .unverified f => f

/-- The `source` property: `WikiPersonality.source` returns its wiki link,
`UnverifiedPersonality.source` returns `None`. -/
def Personality.source : Personality → Option String
  | .wiki _ l _ => some l
  | .unverified _ => none

/-- The `type` property: `WikiPersonality.type` returns the stored type,
`UnverifiedPersonality.type` is always `UNVERIFIED`. -/
def Personality.type : Personality → PersonalityType
  | .wiki _ _ t => t
  | .unverified _ => .UNVERIFIED

/-- The `(fullname, type, sourceUrl)` view that the spec designates as the
equality and hash key. -/
def Personality.key (p : Personality) : String × PersonalityType × Option String :=
  (p.fullname, p.type, p.source)

/-- Index of an enum member, used only to feed the hash model. -/
def PersonalityType.toIdx : PersonalityType → Nat
  | .INDIVIDUAL => 1
  | .COMPANY => 2
  | .MEDIA_GROUP => 3
  | .UNVERIFIED => 4

/-- Model of the `__hash__` generated for each frozen dataclass: a pure
function of the tuple of the instance's fields. -/
def Personality.pyHash : Personality → UInt64
  | .wiki f l t => mixHash (hash f) (mixHash (hash l) (hash t.toIdx))
  | .unverified f => hash f

/-- Python case folding (`str.lower`) restricted to the alphabets the
pipeline actually meets: ASCII letters and the Russian Cyrillic block
А-Я / Ё. -/
def pyLowerChar (c : Char) : Char :=
  if 'A' ≤ c ∧ c ≤ 'Z' then Char.ofNat (c.toNat + 32)
  else if 0x410 ≤ c.toNat ∧ c.toNat ≤ 0x42F then Char.ofNat (c.toNat + 32)
  else if c.toNat = 0x401 then Char.ofNat 0x451
  else c

/-- Case folding `s.lower()` applied to a whole string. -/
def pyLower (s : String) : String := String.mk (s.data.map pyLowerChar)

/-- The name fact attached to a span by `span.extract_fact(NAMES_EXTRACTOR)`:
its `as_dict` view may or may not carry the keys `"first"` and `"last"`. -/
structure Fact where
  first : Option String
  last : Option String
deriving DecidableEq, Repr

/-- A natasha span after `span.normalize(MORPH_VOCAB)` and
`span.extract_fact(NAMES_EXTRACTOR)`: its normal form and optional fact. -/
structure Span where
  normal : String
  fact : Option Fact
deriving DecidableEq, Repr

/-- Stripping `str.strip()`: whitespace removed from both ends. -/
def pyStrip (s : String) : String :=
  String.mk
    (((s.data.dropWhile Char.isWhitespace).reverse.dropWhile Char.isWhitespace).reverse)

/-- Fullname assembly `f"{first_name} {last_name}".strip()` with the empty
string substituted for a key missing from the fact dictionary. -/
def fullnameOfFact (f : Fact) : String :=
  pyStrip (f.first.getD "" ++ " " ++ f.last.getD "")

/-- One iteration of the candidate loop in
`extract_personalities_from_document` (lines 127-137): a span whose normal
form is in `STOP_WORDS` is skipped (`continue`), a span with a fact yields
the joined fullname, any other span yields its normal form. -/
def candidateOfSpan (stopWords : List String) (s : Span) : Option String :=
  if s.normal ∈ stopWords then none
  else match s.fact with
    | some f => some (fullnameOfFact f)
    | none => some s.normal

/-- One loop iteration adding an optional element to an accumulated set. -/
def optInsertStep {α β : Type _} [DecidableEq β] (f : α → Option β)
    (acc : Finset β) (a : α) : Finset β :=
  match f a with
  | some b => insert b acc
  | none => acc

/-- The `personalities` set built by the candidate loop. -/
def candidatesOfSpans (stopWords : List String) (spans : List Span) : Finset String :=
  spans.foldl (optInsertStep (candidateOfSpan stopWords)) ∅

/-- Model of `prepare_stop_words` in `natasha_adapter.py`: every word read
from the stop-word files is stripped and lowercased before insertion, and
the nltk Russian stop-word list is unioned in. -/
def prepare_stop_words (fileWords nltkRussian : List String) : List String :=
  fileWords.map (fun w => pyLower w.trim) ++ nltkRussian

/-- A resolved wikipedia page: `page.title`, `page.url`, `page.categories`. -/
structure Page where
  title : String
  url : String
  categories : List String
deriving Repr

/-- The abstract knowledge-base oracle: `wikipedia.search` and
`wikipedia.page`, either of which may raise a `WikipediaException`
(modelled as `Except.error`). -/
structure Kb where
  search : String → Except Unit (List String)
  page : String → Except Unit Page

/-- Company-qualifier test of the first disambiguation loop:
`temp.lower() == f"{personality.lower()} (компания)"`. -/
def isCompanyTitle (candidate t : String) : Bool :=
  pyLower t == pyLower candidate ++ " (компания)"

/-- Social-network-qualifier test of the second disambiguation loop:
`temp.lower() == f"{personality.lower()} (социальная сеть)"` (the trailing
`!= 0` in the source is a chained comparison against the pattern string,
a string-to-int inequality, hence always true). -/
def isSocialTitle (candidate t : String) : Bool :=
  pyLower t == pyLower candidate ++ " (социальная сеть)"

/-- Title disambiguation (lines 156-172): first title passing the company
test, else first title passing the social-network test, else the head of
the result list (`wiki_personalities[0]`). -/
def resolveTitle (candidate : String) (results : List String) : String :=
  match results.find? (isCompanyTitle candidate) with
  | some t => t
  | none =>
    match results.find? (isSocialTitle candidate) with
    | some t => t
    | none => results.headD ""

/-- The first enum variant accepting a given category, in declared order
(each recognized label belongs to exactly one variant). -/
def typeOfCategory (c : String) : Option PersonalityType :=
  PersonalityType.all.find? (fun t => t.accepts_category c)

/-- One step of the category loop (lines 181-188): the inner
`for t in PersonalityType` sets `personality_type` to the first variant
accepting the category and leaves it unchanged when no variant accepts. -/
def classifyStep (pt : Option PersonalityType) (c : String) : Option PersonalityType :=
  match typeOfCategory c with
  | some t => some t
  | none => pt

/-- The full category loop: walks `page.categories` in order, updating
`personality_type` at every category, and stops at the first category in
`STOP_WIKI_CATEGORIES`, recording it.  Returns the final
`(personality_type, encountered_stop_category)` pair. -/
def classifyCategories (pt : Option PersonalityType) :
    List String → Option PersonalityType × Option String
  | [] => (pt, none)
  | c :: rest =>
    let pt' := classifyStep pt c
    if c ∈ STOP_WIKI_CATEGORIES then (pt', some c)
    else classifyCategories pt' rest

/-- The body of the per-candidate `try` block (lines 146-207): any
`WikipediaException` raised by `search` or `page` propagates as
`Except.error`; `ok none` means the candidate is dropped (veto), `ok (some p)`
means `p` is added to the output set. -/
def processCandidateE (kb : Kb) (candidate : String) : Except Unit (Option Personality) :=
  match kb.search candidate with
  | .error e => .error e
  | .ok results =>
    if results.isEmpty then .ok (some (.unverified candidate))
    else
      match kb.page (resolveTitle candidate results) with
      | .error e => .error e
      | .ok page =>
        if (classifyCategories none page.categories).2.isSome then .ok none
        else
          match (classifyCategories none page.categories).1 with
          | some t => .ok (some (.wiki page.title page.url t))
          | none => .ok (some (.unverified candidate))

/-- The per-candidate processing with its `except WikipediaException`
handler (lines 208-211): a raised exception drops the candidate. -/
def processCandidate (kb : Kb) (candidate : String) : Option Personality :=
  match processCandidateE kb candidate with
  | .ok r => r
  | .error _ => none

/-- The `actual_personalities` set built by the candidate loop
(lines 144-211). -/
def extractActual (kb : Kb) (candidates : List String) : Finset Personality :=
  candidates.foldl (optInsertStep (processCandidate kb)) ∅

/-- One `self[elem] += 1` step of `Counter.update` over a dict that keeps
insertion order: an existing key is bumped in place, a new key is appended
at the end (first-seen order). -/
def counterAdd : List (Personality × Nat) → Personality → List (Personality × Nat)
  | [], p => [(p, 1)]
  | e :: rest, p =>
    if e.1 = p then (e.1, e.2 + 1) :: rest
    else e :: counterAdd rest p

/-- Construction of `Counter(xs)` over a list of `Personality` values. -/
def counterOf (xs : List Personality) : List (Personality × Nat) :=
  xs.foldl counterAdd []

/-- Lookup of a key's count in the counter, `0` when absent. -/
def lookupCount : List (Personality × Nat) → Personality → Nat
  | [], _ => 0
  | e :: rest, p => if e.1 = p then e.2 else lookupCount rest p

/-- Number of occurrences of `p` in a list. -/
def countOcc (xs : List Personality) (p : Personality) : Nat :=
  (xs.filter (fun x => x = p)).length

/-- Stable insertion of an entry into a list sorted by descending count:
the entry goes after every strictly larger count and before every equal or
smaller one, as Python's stable `sorted(..., reverse=True)` does. -/
def insertDesc (x : Personality × Nat) : List (Personality × Nat) → List (Personality × Nat)
  | [] => [x]
  | y :: ys => if x.2 < y.2 then y :: insertDesc x ys else x :: y :: ys

/-- Stable sort by descending count. -/
def stableSortDesc (l : List (Personality × Nat)) : List (Personality × Nat) :=
  l.foldr insertDesc []

/-- Query `Counter.most_common(k)`: the `k` largest counts, sorted
descending, ties kept in the counter's first-seen order. -/
def mostCommon (k : Nat) (c : List (Personality × Nat)) : List (Personality × Nat) :=
  (stableSortDesc c).take k

/-- The `personalities` list built by `process_dir` in
`context_analyser/main.py`: `personalities.extend(p)` for each
per-document set `p`, i.e. element-wise concatenation. -/
def contextPersonalities (docSets : List (List Personality)) : List Personality :=
  docSets.foldl (fun acc s => acc ++ s) []

/-- A Python object appended to the `personalities` list: either a single
`Personality` or a whole per-document `set` of them. -/
inductive PyObj where
  | objPers (p : Personality)
  | objSet (s : Finset Personality)
deriving DecidableEq

/-- Hashability of such an object: `Personality` instances are hashable
(frozen dataclasses), a `set` is not. -/
def PyObj.isHashable : PyObj → Bool
  | .objPers _ => true
  | .objSet _ => false

/-- Increment `self[elem] += 1` on the object counter. -/
def counterAddObj : List (PyObj × Nat) → PyObj → List (PyObj × Nat)
  | [], p => [(p, 1)]
  | e :: rest, p =>
    if e.1 = p then (e.1, e.2 + 1) :: rest
    else e :: counterAddObj rest p

/-- Tail of `Counter(xs)` over arbitrary Python objects: iterates the list
left to right and raises `TypeError` at the first unhashable element. -/
def counterOfObjsAux (acc : List (PyObj × Nat)) :
    List PyObj → Except String (List (PyObj × Nat))
  | [] => .ok acc
  | x :: rest =>
    if x.isHashable then counterOfObjsAux (counterAddObj acc x) rest
    else .error "TypeError: unhashable type: set"

/-- Construction of `Counter(xs)` over arbitrary Python objects. -/
def counterOfObjs (xs : List PyObj) : Except String (List (PyObj × Nat)) :=
  counterOfObjsAux [] xs

/-- The `personalities` list built by `process_dir` in
`analyser/main.py`: `personalities.append(p)` appends each per-document
set itself as one element. -/
def analyserPersonalities (docSets : List (Finset Personality)) : List PyObj :=
  docSets.map .objSet

/-- A knowledge base whose every call raises `WikipediaException`. -/
def kbFail : Kb where
  search := fun _ => .error ()
  page := fun _ => .error ()

/-- A knowledge base whose search always succeeds with zero results. -/
def kbEmpty : Kb where
  search := fun _ => .ok []
  page := fun _ => .error ()

/-- A knowledge base resolving every candidate to a page carrying a stop
category. -/
def kbVetoed : Kb where
  search := fun _ => .ok ["Биткойн"]
  page := fun _ =>
    .ok ⟨"Биткойн", "https://ru.wikipedia.org/wiki/Биткойн",
         ["Категория:Компании по алфавиту", "Категория:Криптовалюты"]⟩

/-! ## Helper lemmas -/

/-- Folding over a list with one element on which the step is the identity
is folding over the list without it. -/
lemma foldl_skip {α σ : Type _} (g : σ → α → σ) (x : α) (hx : ∀ s, g s x = s)
    (pre post : List α) (init : σ) :
    (pre ++ x :: post).foldl g init = (pre ++ post).foldl g init := by
  rw [List.foldl_append, List.foldl_append, List.foldl_cons, hx]

/-- Membership in an optional-insert fold is preserved from the initial set. -/
lemma foldl_optInsert_mem_init {α β : Type _} [DecidableEq β] (f : α → Option β)
    (l : List α) (acc : Finset β) (b : β) (hb : b ∈ acc) :
    b ∈ l.foldl (optInsertStep f) acc := by
  induction l generalizing acc with
  | nil => exact hb
  | cons a l ih =>
    rw [List.foldl_cons]
    refine ih _ ?_
    unfold optInsertStep
    cases h : f a with
    | none => exact hb
    | some x => exact Finset.mem_insert_of_mem hb

/-- An element produced by the step function of an optional-insert fold is
a member of the fold's result. -/
lemma foldl_optInsert_mem {α β : Type _} [DecidableEq β] (f : α → Option β)
    (l : List α) (acc : Finset β) (a : α) (b : β) (ha : a ∈ l) (hf : f a = some b) :
    b ∈ l.foldl (optInsertStep f) acc := by
  induction l generalizing acc with
  | nil => cases ha
  | cons c l ih =>
    rw [List.foldl_cons]
    rcases List.mem_cons.mp ha with rfl | ha2
    · apply foldl_optInsert_mem_init
      unfold optInsertStep
      simp only [hf]
      exact Finset.mem_insert_self _ _
    · exact ih _ ha2

/-- Appending one element on the right shifts `findSome?` by one fallback. -/
lemma findSome?_append_singleton {α β : Type _} (f : α → Option β) (l : List α) (c : α) :
    (l ++ [c]).findSome? f =
      match l.findSome? f with
      | some b => some b
      | none => f c := by
  induction l with
  | nil =>
    simp only [List.nil_append, List.findSome?_cons, List.findSome?_nil]
    cases f c <;> rfl
  | cons a l ih =>
    simp only [List.cons_append, List.findSome?_cons]
    cases f a <;> simp [ih]

/-- On a category list free of stop categories, the classification loop
runs to the end, records no stop category, and its final
`personality_type` is the variant of the last recognized category (with
the incoming accumulator as fallback). -/
lemma classifyCategories_no_stop (cats : List String)
    (h : ∀ c ∈ cats, c ∉ STOP_WIKI_CATEGORIES) (pt : Option PersonalityType) :
    classifyCategories pt cats =
      (match cats.reverse.findSome? typeOfCategory with
       | some t => some t
       | none => pt, none) := by
  induction cats generalizing pt with
  | nil => rfl
  | cons c rest ih =>
    have hc : c ∉ STOP_WIKI_CATEGORIES := h c (List.mem_cons_self _ _)
    rw [classifyCategories, if_neg hc,
      ih (fun x hx => h x (List.mem_cons_of_mem _ hx)) (classifyStep pt c)]
    rw [List.reverse_cons, findSome?_append_singleton]
    cases hr : rest.reverse.findSome? typeOfCategory with
    | some t => rfl
    | none =>
      show (_, _) = (_, _)
      cases ht : typeOfCategory c <;> simp [classifyStep, ht]

/-- The classification loop records a stop category exactly when the
category list intersects the stop set. -/
lemma classifyCategories_stop_isSome (cats : List String) (pt : Option PersonalityType) :
    (classifyCategories pt cats).2.isSome = true ↔
      ∃ c ∈ cats, c ∈ STOP_WIKI_CATEGORIES := by
  induction cats generalizing pt with
  | nil => simp [classifyCategories]
  | cons c rest ih =>
    by_cases hc : c ∈ STOP_WIKI_CATEGORIES
    · rw [classifyCategories, if_pos hc]
      simp only [Option.isSome_some, true_iff]
      exact ⟨c, List.mem_cons_self _ _, hc⟩
    · rw [classifyCategories, if_neg hc, ih]
      constructor
      · rintro ⟨x, hx, hs⟩
        exact ⟨x, List.mem_cons_of_mem _ hx, hs⟩
      · rintro ⟨x, hx, hs⟩
        rcases List.mem_cons.mp hx with rfl | hx2
        · exact absurd hs hc
        · exact ⟨x, hx2, hs⟩

/-! ## Claim theorems -/

/-- C1: two `Personality` values (of either shape) are equal iff their
`(fullname, type, sourceUrl)` triples are equal; a `WikiPersonality` is
never equal to an `UnverifiedPersonality`; and equal values have equal
hashes. -/
theorem personality_eq_iff_key (p q : Personality) :
    (p = q ↔ p.key = q.key) ∧
    (p = q → p.pyHash = q.pyHash) ∧
    (∀ f l t g, Personality.wiki f l t ≠ Personality.unverified g) := by
  refine ⟨⟨fun h => by rw [h], fun h => ?_⟩, fun h => by rw [h], fun f l t g h => by cases h⟩
  cases p <;> cases q <;>
    simp_all [Personality.key, Personality.fullname, Personality.type, Personality.source]

/-- Witness for C1 at concrete values. -/
theorem personality_eq_iff_key_witness :
    (Personality.wiki "Acme" "u" .COMPANY).pyHash
        = (Personality.wiki "Acme" "u" .COMPANY).pyHash ∧
    Personality.wiki "Acme" "u" .COMPANY ≠ Personality.unverified "Acme" :=
  ⟨(personality_eq_iff_key (.wiki "Acme" "u" .COMPANY) (.wiki "Acme" "u" .COMPANY)).2.1 rfl,
   (personality_eq_iff_key (.wiki "Acme" "u" .COMPANY)
      (.wiki "Acme" "u" .COMPANY)).2.2 "Acme" "u" .COMPANY "Acme"⟩

/-- C2 counterexample: a page carrying both the INDIVIDUAL label and the
COMPANY label, with the INDIVIDUAL label first in page iteration order,
classifies as COMPANY — not INDIVIDUAL as declared-order priority would
demand. -/
theorem classify_order_counterexample :
    (classifyCategories none
        ["Категория:Персоналии по алфавиту", "Категория:Компании по алфавиту"]).1
      = some PersonalityType.COMPANY ∧
    some PersonalityType.COMPANY ≠ some PersonalityType.INDIVIDUAL := by
  exact ⟨by decide, by decide⟩

/-- C2 amended: on a non-vetoed page the classifier returns the variant of
the *last* recognized category in the page's iteration order (the inner
declared-order loop only picks the unique variant owning each single
category), so the result depends on the order of `page.categories`. -/
theorem classify_last_recognized (cats : List String)
    (h : ∀ c ∈ cats, c ∉ STOP_WIKI_CATEGORIES) :
    (classifyCategories none cats).1 = cats.reverse.findSome? typeOfCategory ∧
    (classifyCategories none cats).2 = none := by
  rw [classifyCategories_no_stop cats h none]
  cases hr : cats.reverse.findSome? typeOfCategory <;> simp

/-- Witness for C2's amended theorem on a concrete category list. -/
theorem classify_last_recognized_witness :
    (classifyCategories none
        ["Категория:Персоналии по алфавиту", "Категория:Компании по алфавиту"]).1
      = ["Категория:Персоналии по алфавиту",
         "Категория:Компании по алфавиту"].reverse.findSome? typeOfCategory :=
  (classify_last_recognized
    ["Категория:Персоналии по алфавиту", "Категория:Компании по алфавиту"]
    (by decide)).1

/-- C3 counterexample: for candidate `"Apple"` with search results
`["Apple", "Apple (company)"]` the resolver selects `"Apple"`, not the
company-qualified title — the company test matches only the Russian
qualifier `(компания)`. -/
theorem resolve_apple_counterexample :
    resolveTitle "Apple" ["Apple", "Apple (company)"] = "Apple" ∧
    ("Apple" : String) ≠ "Apple (company)" := by
  exact ⟨by decide, by decide⟩

/-- C3 amended: strict selection priority — the first title
case-insensitively equal to `"<candidate> (компания)"` when one exists,
else the first title case-insensitively equal to
`"<candidate> (социальная сеть)"` when one exists, else the first title of
the result list; an English qualifier such as `"(company)"` is not matched
by either test. -/
theorem resolveTitle_priority (c : String) (rs : List String) :
    ((∃ t ∈ rs, isCompanyTitle c t = true) → isCompanyTitle c (resolveTitle c rs) = true) ∧
    ((∀ t ∈ rs, isCompanyTitle c t = false) → (∃ t ∈ rs, isSocialTitle c t = true) →
        isSocialTitle c (resolveTitle c rs) = true) ∧
    ((∀ t ∈ rs, isCompanyTitle c t = false) → (∀ t ∈ rs, isSocialTitle c t = false) →
        resolveTitle c rs = rs.headD "") := by
  unfold resolveTitle
  cases h1 : rs.find? (isCompanyTitle c) with
  | some t =>
    have hp := List.find?_some h1
    have hm := List.mem_of_find?_eq_some h1
    refine ⟨fun _ => hp, fun hno _ => ?_, fun hno _ => ?_⟩
    · rw [hno t hm] at hp; cases hp
    · rw [hno t hm] at hp; cases hp
  | none =>
    have hnone1 := List.find?_eq_none.mp h1
    refine ⟨?_, ?_, ?_⟩
    · rintro ⟨t, ht, hpt⟩
      exact absurd hpt (hnone1 t ht)
    all_goals
      cases h2 : rs.find? (isSocialTitle c) with
      | some u =>
        have hpu := List.find?_some h2
        have hmu := List.mem_of_find?_eq_some h2
        · first
          | exact fun _ _ => hpu
          | exact fun _ hno => absurd hpu (by rw [hno u hmu]; simp)
      | none =>
        have hnone2 := List.find?_eq_none.mp h2
        · first
          | exact fun _ hex => absurd hex (by
              rintro ⟨t, ht, hpt⟩
              exact hnone2 t ht hpt)
          | exact fun _ _ => rfl

/-- Witness for C3's amended theorem: the Russian company qualifier is
selected with top priority. -/
theorem resolveTitle_priority_witness :
    isCompanyTitle "Apple" (resolveTitle "Apple" ["Apple", "Apple (компания)"]) = true :=
  (resolveTitle_priority "Apple" ["Apple", "Apple (компания)"]).1
    ⟨"Apple (компания)", by decide, by decide⟩

/-- C4: a resolved page whose categories intersect the stop set yields no
`Personality` at all for its candidate — processing returns `none` and the
document's output set is the same as if the candidate were absent. -/
theorem veto_excludes (kb : Kb) (cand : String) (results : List String) (page : Page)
    (h1 : kb.search cand = .ok results) (h2 : results.isEmpty = false)
    (h3 : kb.page (resolveTitle cand results) = .ok page)
    (h4 : ∃ c ∈ page.categories, c ∈ STOP_WIKI_CATEGORIES) :
    processCandidate kb cand = none ∧
    ∀ pre post, extractActual kb (pre ++ cand :: post) = extractActual kb (pre ++ post) := by
  have hstop : (classifyCategories none page.categories).2.isSome = true :=
    (classifyCategories_stop_isSome _ _).mpr h4
  have hmain : processCandidate kb cand = none := by
    simp [processCandidate, processCandidateE, h1, h2, h3, hstop]
  refine ⟨hmain, fun pre post => ?_⟩
  unfold extractActual
  exact foldl_skip _ cand (fun s => by simp [optInsertStep, hmain]) pre post ∅

/-- Witness for C4 on a concrete vetoed knowledge base. -/
theorem veto_excludes_witness :
    processCandidate kbVetoed "Биткойн" = none :=
  (veto_excludes kbVetoed "Биткойн" ["Биткойн"]
    ⟨"Биткойн", "https://ru.wikipedia.org/wiki/Биткойн",
     ["Категория:Компании по алфавиту", "Категория:Криптовалюты"]⟩
    rfl rfl rfl ⟨"Категория:Криптовалюты", by decide, by decide⟩).1

/-- C5 counterexample: the code checks the normalized form verbatim, not
case-folded — a span whose normal form `"Если"` case-folds into the
(all-lowercase) stop set still produces a candidate. -/
theorem stopword_casefold_counterexample :
    pyLower "Если" ∈ ["если"] ∧
    candidateOfSpan ["если"] ⟨"Если", none⟩ = some "Если" ∧
    "Если" ∈ candidatesOfSpans ["если"] [⟨"Если", none⟩] := by
  refine ⟨by decide, by decide, ?_⟩
  show "Если" ∈ candidatesOfSpans ["если"] [⟨"Если", none⟩]
  decide

/-- C5 amended: a span whose normalized form is *verbatim* a member of the
stop-word set produces no candidate, regardless of whether it carries a
fact, and the candidate set of the document is unchanged by its presence
(so no downstream `Personality` can derive from it). -/
theorem stopword_verbatim_excludes (sw : List String) (s : Span) (h : s.normal ∈ sw) :
    candidateOfSpan sw s = none ∧
    ∀ pre post, candidatesOfSpans sw (pre ++ s :: post) = candidatesOfSpans sw (pre ++ post) := by
  have hc : candidateOfSpan sw s = none := by simp [candidateOfSpan, h]
  refine ⟨hc, fun pre post => ?_⟩
  unfold candidatesOfSpans
  exact foldl_skip _ s (fun acc => by simp [optInsertStep, hc]) pre post ∅

/-- Witness for C5's amended theorem: a lowercase stop word is filtered. -/
theorem stopword_verbatim_excludes_witness :
    candidateOfSpan ["если"] ⟨"если", none⟩ = none :=
  (stopword_verbatim_excludes ["если"] ⟨"если", none⟩ (by decide)).1

/-- C6: a `WikipediaException` raised by the search or the page fetch for
one candidate drops exactly that candidate — it is not emitted as
Unverified, and the output over the remaining candidates is unchanged, so
the failure never aborts the batch. -/
theorem kb_exception_isolated (kb : Kb) (cand : String)
    (h : kb.search cand = .error () ∨
         ∃ results, kb.search cand = .ok results ∧ results.isEmpty = false ∧
           kb.page (resolveTitle cand results) = .error ()) :
    processCandidate kb cand = none ∧
    ∀ pre post, extractActual kb (pre ++ cand :: post) = extractActual kb (pre ++ post) := by
  have hmain : processCandidate kb cand = none := by
    rcases h with h1 | ⟨results, h1, h2, h3⟩
    · simp [processCandidate, processCandidateE, h1]
    · simp [processCandidate, processCandidateE, h1, h2, h3]
  refine ⟨hmain, fun pre post => ?_⟩
  unfold extractActual
  exact foldl_skip _ cand (fun s => by simp [optInsertStep, hmain]) pre post ∅

/-- Witness for C6 on a knowledge base whose every call raises. -/
theorem kb_exception_isolated_witness :
    processCandidate kbFail "Acme" = none :=
  (kb_exception_isolated kbFail "Acme" (Or.inl rfl)).1

/-- C7: a candidate whose search succeeds with zero results is emitted as
exactly `Unverified(candidate)` — fullname the candidate string, type
UNVERIFIED, null source — and that entity is in the document's output
whenever the candidate is processed. -/
theorem empty_search_unverified (kb : Kb) (cand : String)
    (h : kb.search cand = .ok []) :
    processCandidate kb cand = some (.unverified cand) ∧
    (Personality.unverified cand).fullname = cand ∧
    (Personality.unverified cand).type = .UNVERIFIED ∧
    (Personality.unverified cand).source = none ∧
    ∀ cands, cand ∈ cands → Personality.unverified cand ∈ extractActual kb cands := by
  have hmain : processCandidate kb cand = some (.unverified cand) := by
    simp [processCandidate, processCandidateE, h]
  refine ⟨hmain, rfl, rfl, rfl, fun cands hm => ?_⟩
  unfold extractActual
  exact foldl_optInsert_mem (processCandidate kb) cands ∅ cand _ hm hmain

/-- Witness for C7 on a knowledge base whose search returns nothing. -/
theorem empty_search_unverified_witness :
    processCandidate kbEmpty "Иванов" = some (.unverified "Иванов") :=
  (empty_search_unverified kbEmpty "Иванов" rfl).1

/-- C8: a span that passes the stop-word filter and carries a fact yields
the candidate `trim(first + " " + last)` with `""` for a missing part; a
fact with neither part yields the empty-string candidate, which is kept in
the candidate set. -/
theorem fact_candidate_fullname (sw : List String) (n : String) (f : Fact)
    (h : n ∉ sw) :
    candidateOfSpan sw ⟨n, some f⟩
        = some (pyStrip (f.first.getD "" ++ " " ++ f.last.getD "")) ∧
    fullnameOfFact ⟨none, none⟩ = "" ∧
    ∀ spans, Span.mk n (some f) ∈ spans →
      fullnameOfFact f ∈ candidatesOfSpans sw spans := by
  refine ⟨by simp [candidateOfSpan, fullnameOfFact, h], by decide, fun spans hm => ?_⟩
  unfold candidatesOfSpans
  exact foldl_optInsert_mem (candidateOfSpan sw) spans ∅ ⟨n, some f⟩ (fullnameOfFact f) hm
    (by simp [candidateOfSpan, h])

/-- Witness for C8: the empty fact inside a one-span document puts the
empty-string candidate in the candidate set. -/
theorem fact_candidate_fullname_witness :
    candidateOfSpan [] ⟨"x", some ⟨none, none⟩⟩
        = some (pyStrip (Option.getD none "" ++ " " ++ Option.getD none "")) ∧
    fullnameOfFact ⟨none, none⟩ ∈
      candidatesOfSpans [] [⟨"x", some ⟨none, none⟩⟩] :=
  ⟨(fact_candidate_fullname [] "x" ⟨none, none⟩ (by decide)).1,
   (fact_candidate_fullname [] "x" ⟨none, none⟩ (by decide)).2.2
     [⟨"x", some ⟨none, none⟩⟩] (by decide)⟩

end HabrSpider

namespace HabrSpider

/-! ## Counter lemmas -/

/-- Incrementing a key changes exactly that key's count by one. -/
lemma lookupCount_counterAdd (c : List (Personality × Nat)) (q p : Personality) :
    lookupCount (counterAdd c q) p = lookupCount c p + (if q = p then 1 else 0) := by
  induction c with
  | nil => by_cases hqp : q = p <;> simp [counterAdd, lookupCount, hqp]
  | cons e rest ih =>
    by_cases he : e.1 = q
    · rw [counterAdd, if_pos he]
      by_cases hep : e.1 = p
      · have hqp : q = p := he.symm.trans hep
        simp [lookupCount, hep, hqp]
      · have hqp : ¬ q = p := fun hq => hep (he.trans hq)
        simp [lookupCount, hep, hqp]
    · rw [counterAdd, if_neg he]
      by_cases hep : e.1 = p
      · have hqp : ¬ q = p := fun hq => he (hep.trans hq.symm)
        simp [lookupCount, hep, hqp]
      · simp [lookupCount, hep, ih]

/-- Folding `counterAdd` over a list adds each element's occurrence count. -/
lemma lookupCount_foldl (xs : List Personality) (acc : List (Personality × Nat))
    (p : Personality) :
    lookupCount (xs.foldl counterAdd acc) p = lookupCount acc p + countOcc xs p := by
  induction xs generalizing acc with
  | nil => simp [countOcc]
  | cons x xs ih =>
    rw [List.foldl_cons, ih, lookupCount_counterAdd]
    by_cases h : x = p <;> (simp [countOcc, List.filter_cons, h]; try omega)

/-- Keys reachable after a `counterAdd` are the old keys plus the new one. -/
lemma mem_keys_counterAdd (c : List (Personality × Nat)) (q x : Personality) :
    x ∈ (counterAdd c q).map Prod.fst ↔ x ∈ c.map Prod.fst ∨ x = q := by
  induction c with
  | nil => simp [counterAdd]
  | cons e rest ih =>
    by_cases he : e.1 = q
    · rw [counterAdd, if_pos he]
      subst he
      simp only [List.map_cons, List.mem_cons]
      tauto
    · rw [counterAdd, if_neg he]
      simp only [List.map_cons, List.mem_cons, ih]
      tauto

/-- A `counterAdd` step preserves distinctness of keys. -/
lemma nodup_keys_counterAdd (c : List (Personality × Nat)) (q : Personality)
    (h : (c.map Prod.fst).Nodup) : ((counterAdd c q).map Prod.fst).Nodup := by
  induction c with
  | nil => simp [counterAdd]
  | cons e rest ih =>
    rw [List.map_cons, List.nodup_cons] at h
    by_cases he : e.1 = q
    · rw [counterAdd, if_pos he]
      rw [List.map_cons, List.nodup_cons]
      exact h
    · rw [counterAdd, if_neg he]
      rw [List.map_cons, List.nodup_cons]
      refine ⟨?_, ih h.2⟩
      rw [mem_keys_counterAdd]
      rintro (hm | rfl)
      · exact h.1 hm
      · exact he rfl

/-- Every counter built by the fold has pairwise-distinct keys. -/
lemma nodup_keys_counter_foldl (xs : List Personality) (acc : List (Personality × Nat))
    (h : (acc.map Prod.fst).Nodup) : ((xs.foldl counterAdd acc).map Prod.fst).Nodup := by
  induction xs generalizing acc with
  | nil => exact h
  | cons x xs ih =>
    rw [List.foldl_cons]
    exact ih _ (nodup_keys_counterAdd _ _ h)

/-- Members of a stable insertion are the inserted entry and the old ones. -/
lemma mem_insertDesc (x : Personality × Nat) (l : List (Personality × Nat))
    (z : Personality × Nat) : z ∈ insertDesc x l ↔ z = x ∨ z ∈ l := by
  induction l with
  | nil => simp [insertDesc]
  | cons y ys ih =>
    by_cases h : x.2 < y.2
    · rw [insertDesc, if_pos h]
      simp only [List.mem_cons, ih]
      tauto
    · rw [insertDesc, if_neg h]
      simp only [List.mem_cons]

/-- Stable insertion preserves the descending-count ordering. -/
lemma pairwise_insertDesc (x : Personality × Nat) (l : List (Personality × Nat))
    (h : l.Pairwise (fun a b => b.2 ≤ a.2)) :
    (insertDesc x l).Pairwise (fun a b => b.2 ≤ a.2) := by
  induction l with
  | nil =>
    rw [insertDesc]
    exact List.pairwise_singleton _ _
  | cons y ys ih =>
    rw [List.pairwise_cons] at h
    by_cases hx : x.2 < y.2
    · rw [insertDesc, if_pos hx, List.pairwise_cons]
      refine ⟨fun z hz => ?_, ih h.2⟩
      rcases (mem_insertDesc x ys z).mp hz with rfl | hz2
      · exact Nat.le_of_lt hx
      · exact h.1 z hz2
    · rw [insertDesc, if_neg hx, List.pairwise_cons]
      refine ⟨fun z hz => ?_, List.pairwise_cons.mpr h⟩
      rcases List.mem_cons.mp hz with rfl | hz2
      · exact Nat.le_of_not_lt hx
      · exact le_trans (h.1 z hz2) (Nat.le_of_not_lt hx)

/-- The stable sort is sorted by descending count. -/
lemma pairwise_stableSortDesc (l : List (Personality × Nat)) :
    (stableSortDesc l).Pairwise (fun a b => b.2 ≤ a.2) := by
  induction l with
  | nil => exact List.Pairwise.nil
  | cons x l ih => exact pairwise_insertDesc x _ ih

/-- Restricted to the entries of one fixed count, stable insertion puts
the new entry first and keeps the rest in place. -/
lemma filter_count_insertDesc (x : Personality × Nat) (l : List (Personality × Nat))
    (n : Nat) :
    (insertDesc x l).filter (fun e => e.2 == n)
      = (if x.2 = n then [x] else []) ++ l.filter (fun e => e.2 == n) := by
  induction l with
  | nil => by_cases h : x.2 = n <;> simp [insertDesc, List.filter_cons, h]
  | cons y ys ih =>
    by_cases hxy : x.2 < y.2
    · rw [insertDesc, if_pos hxy]
      by_cases hy : y.2 = n
      · by_cases hx : x.2 = n
        · omega
        · simp [List.filter_cons, hy, hx, ih]
      · simp [List.filter_cons, hy, ih]
    · rw [insertDesc, if_neg hxy]
      by_cases hx : x.2 = n <;> simp [List.filter_cons, hx]

/-- Stability: for every count value, the stable sort leaves the relative
order of entries with that count unchanged. -/
lemma filter_count_stableSortDesc (l : List (Personality × Nat)) (n : Nat) :
    (stableSortDesc l).filter (fun e => e.2 == n) = l.filter (fun e => e.2 == n) := by
  induction l with
  | nil => rfl
  | cons x l ih =>
    show (insertDesc x (stableSortDesc l)).filter _ = _
    rw [filter_count_insertDesc, ih]
    by_cases hx : x.2 = n <;> simp [List.filter_cons, hx]

/-- C9: the corpus aggregator of `context_analyser/main.py` counts every
`Personality` by identity across all documents — the count of each entity
equals its number of occurrences in the concatenated per-document output,
each entity owns a single entry (the same Verified entity from two
documents merges into one entry of count 2), and `most_common(k)` lists
entries in descending count order with ties kept in first-seen order. -/
theorem context_aggregation (docs : List (List Personality)) (k n : Nat) :
    (∀ p, lookupCount (counterOf (contextPersonalities docs)) p
        = countOcc (contextPersonalities docs) p) ∧
    ((counterOf (contextPersonalities docs)).map Prod.fst).Nodup ∧
    (∀ p, lookupCount (counterOf (contextPersonalities [[p], [p]])) p = 2) ∧
    (mostCommon k (counterOf (contextPersonalities docs))).Pairwise
      (fun a b => b.2 ≤ a.2) ∧
    (stableSortDesc (counterOf (contextPersonalities docs))).filter (fun e => e.2 == n)
      = (counterOf (contextPersonalities docs)).filter (fun e => e.2 == n) := by
  refine ⟨fun p => ?_, ?_, fun p => ?_, ?_, ?_⟩
  · rw [counterOf, lookupCount_foldl]
    simp [lookupCount]
  · exact nodup_keys_counter_foldl _ [] List.nodup_nil
  · rw [counterOf, lookupCount_foldl]
    simp [contextPersonalities, countOcc, List.filter_cons, lookupCount]
  · exact List.Pairwise.sublist (List.take_sublist _ _) (pairwise_stableSortDesc _)
  · exact filter_count_stableSortDesc _ _

/-- C10: in the batch driver of `analyser/main.py` the list handed to
`Counter` holds the per-document sets themselves; as soon as the corpus
has at least one document, constructing the `Counter` hits an unhashable
set and raises `TypeError`, so this driver never produces a per-entity
frequency map. -/
theorem analyser_counter_raises (docSets : List (Finset Personality))
    (h : docSets ≠ []) :
    counterOfObjs (analyserPersonalities docSets)
      = .error "TypeError: unhashable type: set" := by
  cases docSets with
  | nil => exact absurd rfl h
  | cons d rest => rfl

/-- Witness for C10 on a one-document corpus. -/
theorem analyser_counter_raises_witness :
    counterOfObjs (analyserPersonalities [∅])
      = .error "TypeError: unhashable type: set" :=
  analyser_counter_raises [∅] (List.cons_ne_nil _ _)

end HabrSpider
